import Mathlib

/-!
Verification development for the StockData repository.

Shallow embedding of the scripts the claims are about:
* `Downloader` — `HistoricalStockData/nasdaq.py` and `NASDAQ/tradeable.py`
  (`process_symbol`, `update_rolling_windows`, `TIMEFRAMES`).
* `MathProc` — `NASDAQ/mathematical_processing.py` (`process_file` and the
  seven `compute_*` column functions).
* `Scanner` — `UnusualVolume/market_scanner.py` (`load_ticker_data`,
  `find_anomalies`, `process_ticker`).
* `Rsi` — `StockAnomalyDetector/graphical_analysis/1yr_all_tickers.py`
  (`calculate_rsi`).
* `Merge` — `NASDAQ/merge.py` (`merge_data`).
* `NasdaqModule` — the module-level statement structure of
  `HistoricalStockData/nasdaq.py` (for the end-of-run summary claim).

Machine floats are embedded as exact rationals extended with the IEEE
special values (`FP`): arithmetic carries no rounding but reproduces the
`nan`/`inf` propagation and division-by-zero behaviour of numpy/pandas,
which several claims depend on.
-/

namespace StockData

/-- IEEE-style scalar: an exact rational, positive/negative infinity, or NaN.
Models the numpy/pandas float values without rounding. -/
inductive FP where
  | num (q : ℚ)
  | inf
  | ninf
  | nan
deriving DecidableEq

namespace FP

/-- IEEE addition (no rounding): NaN propagates, `inf + ninf = nan`. -/
def add : FP → FP → FP
  | nan, _ => nan
  | _, nan => nan
  | inf, ninf => nan
  | ninf, inf => nan
  | inf, _ => inf
  | _, inf => inf
  | ninf, _ => ninf
  | _, ninf => ninf
  | num a, num b => num (a + b)

/-- IEEE negation. -/
def neg : FP → FP
  | nan => nan
  | inf => ninf
  | ninf => inf
  | num a => num (-a)

/-- IEEE subtraction. -/
def sub (x y : FP) : FP := add x (neg y)

/-- IEEE multiplication: `inf * 0 = nan`, signs as usual. -/
def mul : FP → FP → FP
  | nan, _ => nan
  | _, nan => nan
  | inf, inf => inf
  | inf, ninf => ninf
  | ninf, inf => ninf
  | ninf, ninf => inf
  | inf, num b => if b = 0 then nan else if 0 < b then inf else ninf
  | num a, inf => if a = 0 then nan else if 0 < a then inf else ninf
  | ninf, num b => if b = 0 then nan else if 0 < b then ninf else inf
  | num a, ninf => if a = 0 then nan else if 0 < a then ninf else inf
  | num a, num b => num (a * b)

/-- IEEE division: `x / 0` is signed infinity (`nan` for `0 / 0`),
`x / inf = 0`, `inf / inf = nan`. -/
def div : FP → FP → FP
  | nan, _ => nan
  | _, nan => nan
  | inf, inf => nan
  | inf, ninf => nan
  | ninf, inf => nan
  | ninf, ninf => nan
  | inf, num b => if b < 0 then ninf else inf
  | ninf, num b => if b < 0 then inf else ninf
  | num _, inf => num 0
  | num _, ninf => num 0
  | num a, num b =>
      if b = 0 then (if a = 0 then nan else if 0 < a then inf else ninf)
      else num (a / b)

/-- IEEE strict comparison: any comparison involving NaN is false. -/
def lt : FP → FP → Bool
  | nan, _ => false
  | _, nan => false
  | ninf, ninf => false
  | ninf, _ => true
  | _, ninf => false
  | inf, _ => false
  | num _, inf => true
  | num a, num b => decide (a < b)

/-- NaN test (`np.isnan` / `pd.isna` on a float cell). -/
def isNan : FP → Bool
  | nan => true
  | _ => false

end FP

/-! ## Downloader: `HistoricalStockData/nasdaq.py` and `NASDAQ/tradeable.py`

A price series is a list of `(date, bar)` pairs, date-ascending as pandas
keeps it; the bar payload is an arbitrary type `α` because `process_symbol`
and `update_rolling_windows` never inspect the OHLCV values (they only
concatenate, slice and count rows).  A symbol's on-disk files are the
optional all-time series and the three window files.  The tradeable.py
variant differs only in storage format (parquet+csv) and a column-label
flattening, neither of which affects the row-level model. -/

namespace Downloader

variable {α : Type}

/-- `DataFrame.tail n`: the last `n` rows (all rows when the series is
shorter than `n`). -/
def tailN {β : Type} (l : List β) (n : ℕ) : List β :=
  l.drop (l.length - n)

/-- The window sizes of `TIMEFRAMES` (trading days); the `alltime` entry
has no window and is skipped by the update loop. -/
def timeframeWindows : List ℕ := [252, 1260, 2520]

/-- Per-symbol file state: the all-time series and the three window files
(`None` = file does not exist on disk). -/
structure SymbolFiles (α : Type) where
  alltime : Option (List (ℤ × α))
  w1yr : Option (List (ℤ × α))
  w5yr : Option (List (ℤ × α))
  w10yr : Option (List (ℤ × α))
deriving DecidableEq

/-- One iteration of the loop body of `update_rolling_windows` for a
bounded timeframe: if new rows were fetched and the window file exists,
append the new rows to the existing window and trim to the window size;
otherwise recompute the window as the tail of the all-time series. -/
def updateWindow (windowSize : ℕ) (dataAll : List (ℤ × α))
    (dataNew : Option (List (ℤ × α))) (existingWindow : Option (List (ℤ × α))) :
    List (ℤ × α) :=
  match dataNew, existingWindow with
  | some dn, some ex =>
      if dn.isEmpty then tailN dataAll windowSize
      else tailN (ex ++ dn) windowSize
  | _, _ => tailN dataAll windowSize

/-- `update_rolling_windows`: refreshes the three bounded window files;
the loop `continue`s on the `alltime` timeframe, so the all-time file is
never touched here. -/
def updateRollingWindows (dataAll : List (ℤ × α)) (dataNew : Option (List (ℤ × α)))
    (fs : SymbolFiles α) : SymbolFiles α :=
  { alltime := fs.alltime
    w1yr := some (updateWindow 252 dataAll dataNew fs.w1yr)
    w5yr := some (updateWindow 1260 dataAll dataNew fs.w5yr)
    w10yr := some (updateWindow 2520 dataAll dataNew fs.w10yr) }

/-- Per-symbol outcome printed by `process_symbol`; `success` is the
boolean the function returns. -/
inductive DlStatus where
  | noNewData
  | addedRows (n : ℕ)
  | newSymbol (n : ℕ)
  | noData
deriving DecidableEq

/-- The boolean returned by `process_symbol` (`True` except for an empty
cold-start download). -/
def DlStatus.success : DlStatus → Bool
  | .noData => false
  | _ => true

/-- `process_symbol`, with the provider response (`yf.download` result)
passed in as `fetched`.  Warm path: at most one fetched row means "no new
data" and nothing is written; otherwise the first (overlapping) fetched row
is dropped (`data_new.iloc[1:]`), the remainder appended to the existing
all-time series, the all-time file saved and the windows updated.  Cold
path: an empty download is a failure; otherwise the full history becomes
the all-time file and the windows are built from it. -/
def processSymbol (fetched : List (ℤ × α)) (fs : SymbolFiles α) :
    DlStatus × SymbolFiles α :=
  match fs.alltime with
  | some existingData =>
      if fetched.length ≤ 1 then (.noNewData, fs)
      else
        let dataNew := fetched.drop 1
        let dataAll := existingData ++ dataNew
        (.addedRows dataNew.length,
          updateRollingWindows dataAll (some dataNew) { fs with alltime := some dataAll })
  | none =>
      if fetched.isEmpty then (.noData, fs)
      else
        (.newSymbol fetched.length,
          updateRollingWindows fetched none { fs with alltime := some fetched })

end Downloader

/-! ## MathProc: `NASDAQ/mathematical_processing.py`

A pandas frame is modelled by its row count and the nine columns the
script reads or writes, each an optional list of float cells (`None` =
column absent).  `clean_dataframe` (multi-index flattening, duplicate and
extra-column dropping) is the identity on this model, whose columns are
already single-level, unique and restricted to the standard + computed
set.  The two transcendental numpy primitives are abstracted as rational
parameters: `lg` gives `np.log` on positive arguments (`nplog` supplies
the IEEE behaviour on the rest), and `s` gives `np.sqrt` on the
nonnegative argument `np.nanstd` passes it.  The GPU branches of the
`compute_*` functions are device-accelerated equivalents guarded by
`try/except` fallback; the CPU fallback is what is embedded. -/

namespace MathProc

open FP

/-- `pd.to_numeric(col, errors='coerce').fillna(0)` applied to one cell:
missing/unparseable values become `0`, everything else is unchanged. -/
def fillna0 (p : FP) : FP :=
  if p.isNan then FP.num 0 else p

/-- Sum of a float array (left fold, as numpy accumulates). -/
def fsum (l : List FP) : FP :=
  l.foldl FP.add (FP.num 0)

/-- `np.nanmean`: mean of the non-NaN entries, NaN when there are none. -/
def nanmean (ps : List FP) : FP :=
  let valid := ps.filter (fun p => !p.isNan)
  if valid.isEmpty then FP.nan
  else FP.div (fsum valid) (FP.num valid.length)

/-- `np.log` lifted to `FP`, given its values `lg` on positive rationals:
`log nan = nan`, `log inf = inf`, `log 0 = -inf`, `log x = nan` for
`x < 0` (and for `-inf`). -/
def nplog (lg : ℚ → ℚ) : FP → FP
  | FP.nan => FP.nan
  | FP.inf => FP.inf
  | FP.ninf => FP.nan
  | FP.num q => if 0 < q then FP.num (lg q) else if q = 0 then FP.ninf else FP.nan

/-- `np.nanstd` (population standard deviation of the non-NaN entries),
given `np.sqrt`'s values `s` on nonnegative rationals: the square root of
the mean squared deviation from `nanmean`. -/
def nanstd (s : ℚ → ℚ) (ps : List FP) : FP :=
  let valid := ps.filter (fun p => !p.isNan)
  let m := nanmean ps
  let var := FP.div (fsum (valid.map (fun p => FP.mul (FP.sub p m) (FP.sub p m))))
      (FP.num valid.length)
  match var with
  | FP.num v => FP.num (s v)
  | FP.inf => FP.inf
  | _ => FP.nan

/-- `compute_returns` (CPU path):
`np.concatenate([[nan], np.diff(prices) / prices[:-1]])`.  Note the output
has length 1, not 0, for an empty input. -/
def computeReturns (ps : List FP) : List FP :=
  if ps.isEmpty then [FP.nan]
  else
    (List.range ps.length).map fun i =>
      if i = 0 then FP.nan
      else FP.div (FP.sub (ps.getD i FP.nan) (ps.getD (i - 1) FP.nan))
        (ps.getD (i - 1) FP.nan)

/-- `compute_log_returns` (CPU path): first difference of `np.log(prices)`
prefixed with NaN; length 1 for an empty input, as with `computeReturns`. -/
def computeLogReturns (lg : ℚ → ℚ) (ps : List FP) : List FP :=
  if ps.isEmpty then [FP.nan]
  else
    let lp := ps.map (nplog lg)
    (List.range ps.length).map fun i =>
      if i = 0 then FP.nan
      else FP.sub (lp.getD i FP.nan) (lp.getD (i - 1) FP.nan)

/-- `compute_log_volume` (CPU path):
`np.log(np.where(volumes > 0, volumes, np.nan))`. -/
def computeLogVolume (lg : ℚ → ℚ) (vs : List FP) : List FP :=
  vs.map fun v => nplog lg (if FP.lt (FP.num 0) v then v else FP.nan)

/-- `compute_z_score_global` (CPU path): z-scores against the whole file's
`nanmean`/`nanstd`, or an all-zero column when the standard deviation is
not positive (`np.zeros_like`). -/
def computeZScoreGlobal (s : ℚ → ℚ) (ps : List FP) : List FP :=
  let m := nanmean ps
  let sd := nanstd s ps
  if FP.lt (FP.num 0) sd then ps.map (fun p => FP.div (FP.sub p m) sd)
  else List.replicate ps.length (FP.num 0)

/-- `compute_price_percentile` (CPU path): for each non-NaN price, the
fraction of the file's valid prices strictly below it; NaN positions keep
the zero the output array was initialised with. -/
def computePricePercentile (ps : List FP) : List FP :=
  let valid := ps.filter (fun p => !p.isNan)
  ps.map fun p =>
    if p.isNan then FP.num 0
    else FP.num ((valid.countP (fun q => FP.lt q p) : ℚ) / (valid.length : ℚ))

/-- `compute_volume_intensity` (CPU path): volume over the file's mean
volume, or an all-zero column when the mean is not positive. -/
def computeVolumeIntensity (vs : List FP) : List FP :=
  let m := nanmean vs
  if FP.lt (FP.num 0) m then vs.map (fun v => FP.div v m)
  else List.replicate vs.length (FP.num 0)

/-- The guard of the all-missing fallback branch of
`compute_cumulative_return`: `not valid_mask.any()`. -/
def fallbackCond (ps : List FP) : Bool :=
  !(ps.any fun p => !p.isNan)

/-- `compute_cumulative_return` (CPU path): price over the first valid
price minus one, or an all-NaN column (`np.full_like(prices, np.nan)`)
when no valid price exists. -/
def computeCumulativeReturn (ps : List FP) : List FP :=
  if fallbackCond ps then List.replicate ps.length FP.nan
  else
    let firstPrice := ((ps.filter fun p => !p.isNan).headD FP.nan)
    ps.map fun p => FP.sub (FP.div p firstPrice) (FP.num 1)

/-- The frame: row count plus the columns `process_file` touches, each
`None` when absent from the file. -/
structure Frame where
  nrows : ℕ
  close : Option (List FP)
  volume : Option (List FP)
  dailyReturn : Option (List FP)
  logReturn : Option (List FP)
  logVolume : Option (List FP)
  zScoreGlobal : Option (List FP)
  pricePercentile : Option (List FP)
  volumeIntensity : Option (List FP)
  cumulativeReturn : Option (List FP)
deriving DecidableEq

/-- Every present column has the frame's row count (pandas invariant). -/
def Frame.wellFormed (f : Frame) : Bool :=
  [f.close, f.volume, f.dailyReturn, f.logReturn, f.logVolume, f.zScoreGlobal,
    f.pricePercentile, f.volumeIntensity, f.cumulativeReturn].all
    fun c => c.elim true (fun l => l.length == f.nrows)

/-- The seven derived columns of `required_cols`, in script order. -/
def Frame.requiredCols (f : Frame) : List (Option (List FP)) :=
  [f.dailyReturn, f.logReturn, f.logVolume, f.zScoreGlobal,
    f.pricePercentile, f.volumeIntensity, f.cumulativeReturn]

/-- `all(existing_cols.values())`: the seven derived columns all exist. -/
def Frame.requiredPresent (f : Frame) : Bool :=
  f.requiredCols.all Option.isSome

/-- `last_row_complete`: all seven derived columns exist, the frame is
nonempty, and each of the seven is populated (non-NA) in its last row. -/
def Frame.lastRowComplete (f : Frame) : Bool :=
  f.requiredPresent && decide (0 < f.nrows) &&
    f.requiredCols.all fun c =>
      match (c.getD []).getLast? with
      | some v => !v.isNan
      | none => false

/-- The needs-update test of one column block:
`not existing_cols[c] or pd.isna(df.get(c, pd.Series([np.nan])).iloc[-1])`.
`iloc[-1]` on a present-but-empty column raises `IndexError`. -/
def colNeedsUpdate (col : Option (List FP)) : Except String Bool :=
  match col with
  | none => .ok true
  | some l =>
      match l.getLast? with
      | some v => .ok v.isNan
      | none => .error "IndexError: single positional indexer is out-of-bounds"

/-- `df[c] = arr`: pandas raises `ValueError` when the array length does
not match the frame's index length. -/
def setCol (f : Frame) (arr : List FP) (set : Frame → List FP → Frame) :
    Except String Frame :=
  if arr.length = f.nrows then .ok (set f arr)
  else .error "ValueError: Length of values does not match length of index"

/-- One conditional column block of `process_file`, propagating an
already-raised exception (the blocks are sequential statements inside one
`try` body): when the guarding input column exists and the needs-update
test fires, compute and assign the derived column and record that
processing happened.  The needs-update test reads the original frame's
column `cur`; this matches the script because each block assigns only its
own column, so the column it tests is untouched by the earlier blocks. -/
def colBlock (guardPresent : Bool) (cur : Option (List FP))
    (compute : Unit → List FP) (set : Frame → List FP → Frame) :
    Except String (Bool × Frame) → Except String (Bool × Frame)
  | .error e => .error e
  | .ok (needs, f) =>
      if guardPresent then
        match colNeedsUpdate cur with
        | .error e => .error e
        | .ok need =>
            if need then
              match setCol f (compute ()) set with
              | .error e => .error e
              | .ok f' => .ok (true, f')
            else .ok (needs, f)
      else .ok (needs, f)

/-- The seven column blocks of `process_file`, applied in script order
(Daily Return, Log Return, Log Volume, Z Score Global, Price Percentile,
Volume Intensity, Cumulative Return), threading the frame and the
`needs_processing` flag; any pandas fault is an exception. -/
def processFileBlocks (lg s : ℚ → ℚ) (f0 : Frame) :
    Except String (Bool × Frame) :=
  let closePrices := (f0.close.getD []).map fillna0
  let volumes := (f0.volume.getD []).map fillna0
  colBlock f0.close.isSome f0.cumulativeReturn
    (fun _ => computeCumulativeReturn closePrices)
    (fun f l => { f with cumulativeReturn := some l })
    (colBlock f0.volume.isSome f0.volumeIntensity
      (fun _ => computeVolumeIntensity volumes)
      (fun f l => { f with volumeIntensity := some l })
      (colBlock f0.close.isSome f0.pricePercentile
        (fun _ => computePricePercentile closePrices)
        (fun f l => { f with pricePercentile := some l })
        (colBlock f0.close.isSome f0.zScoreGlobal
          (fun _ => computeZScoreGlobal s closePrices)
          (fun f l => { f with zScoreGlobal := some l })
          (colBlock f0.volume.isSome f0.logVolume
            (fun _ => computeLogVolume lg volumes)
            (fun f l => { f with logVolume := some l })
            (colBlock f0.close.isSome f0.logReturn
              (fun _ => computeLogReturns lg closePrices)
              (fun f l => { f with logReturn := some l })
              (colBlock f0.close.isSome f0.dailyReturn
                (fun _ => computeReturns closePrices)
                (fun f l => { f with dailyReturn := some l })
                (.ok (false, f0))))))))

/-- Result of `process_file` for one file: `skip` returns without writing
anything, `success` writes the updated frame to parquet and CSV, `error`
is the caught-exception status string. -/
inductive ProcResult where
  | skip
  | success (f : Frame)
  | error (msg : String)
deriving DecidableEq

/-- `process_file`: skip when the last row already has all seven derived
columns populated; otherwise run the seven blocks, skip when none fired,
and write the updated frame otherwise.  Exceptions become the error
status. -/
def processFile (lg s : ℚ → ℚ) (f : Frame) : ProcResult :=
  if f.lastRowComplete then .skip
  else
    match processFileBlocks lg s f with
    | .error e => .error e
    | .ok (false, _) => .skip
    | .ok (true, f') => .success f'

end MathProc

/-! ## Scanner: `UnusualVolume/market_scanner.py`

Dates are day numbers (integers); a raw row after the numeric coercion and
`dropna()` of `load_ticker_data` is `(date, close, volume)` with real
values.  `pd.Series.std()` is the sample standard deviation (divisor
`n - 1`); it is the one genuinely irrational quantity the scanner uses, so
this namespace works over `ℝ` with classical decidability.  For a
single-row window pandas yields NaN (division by `0`) and every NaN
comparison is false; here real division by zero yields `0` and the
threshold test `v > mean + 10 * 0` is likewise false at that single row,
so the selected set agrees. -/

namespace Scanner

open Classical

/-- `MONTH_CUTTOFF * 30` days of lookback. -/
def monthCutoffDays : ℤ := 180

/-- Mean of the window's volumes (`data['Volume'].mean()`). -/
noncomputable def meanVol (d : List (ℤ × ℝ)) : ℝ :=
  (d.map fun x => x.2).sum / (d.length : ℝ)

/-- Sample standard deviation of the window's volumes
(`data['Volume'].std()`, divisor `n - 1`). -/
noncomputable def stdVol (d : List (ℤ × ℝ)) : ℝ :=
  Real.sqrt ((d.map fun x => (x.2 - meanVol d) ^ 2).sum / ((d.length : ℝ) - 1))

/-- `load_ticker_data`, starting from the frame after numeric coercion and
`dropna()`: discard the symbol when the most recent close is below
`MIN_PRICE = 0.25`; restrict to the trailing six-month window; discard
when the window is empty; return the dated volume series. -/
noncomputable def loadTickerData (today : ℤ) (rows : List (ℤ × ℝ × ℝ)) :
    Option (List (ℤ × ℝ)) :=
  match rows.getLast? with
  | none => none
  | some r =>
      if r.2.1 < 1 / 4 then none
      else
        let windowed := rows.filter fun x => decide (today - monthCutoffDays ≤ x.1)
        if windowed.isEmpty then none
        else some (windowed.map fun x => (x.1, x.2.2))

/-- One alert record: ticker, date, volume, days since the spike.  The
script formats the date and volume as strings for the CSV; the model keeps
the underlying values. -/
structure AnomalyRec where
  ticker : String
  date : ℤ
  volume : ℝ
  daysAgo : ℤ

/-- `find_anomalies`: empty on missing/empty data; otherwise keep the days
whose volume strictly exceeds `mean + 10 * std` and strictly exceeds
`MIN_STOCK_VOLUME = 100000`, and report those at most `DAY_CUTTOFF = 5`
days old. -/
noncomputable def findAnomalies (today : ℤ) (ticker : String)
    (data : Option (List (ℤ × ℝ))) : List AnomalyRec :=
  match data with
  | none => []
  | some d =>
      if d.length = 0 then []
      else
        let upper := meanVol d + stdVol d * 10
        let anomalies := (d.filter fun x => decide (upper < x.2)).filter
          fun x => decide ((100000 : ℝ) < x.2)
        anomalies.filterMap fun x =>
          if today - x.1 ≤ 5 then some ⟨ticker, x.1, x.2, today - x.1⟩ else none

/-- `process_ticker`: load then scan one symbol. -/
noncomputable def processTicker (today : ℤ) (ticker : String)
    (rows : List (ℤ × ℝ × ℝ)) : List AnomalyRec :=
  findAnomalies today ticker (loadTickerData today rows)

end Scanner

/-! ## Rsi: `StockAnomalyDetector/graphical_analysis/1yr_all_tickers.py`

`calculate_rsi` over a float close series.  `prices.diff()` puts NaN in
position 0; `delta.where(delta > 0, 0)` replaces every position whose
condition is false — including the NaN position, since NaN comparisons are
false — by `0`, so the gain and loss series carry no NaN for numeric
prices and the 14-period rolling mean (`min_periods` = window) is defined
from index 13 on. -/

namespace Rsi

/-- `prices.diff()` at position `i` (NaN at position 0). -/
def diffAt (prices : List FP) (i : ℕ) : FP :=
  if i = 0 then FP.nan
  else FP.sub (prices.getD i FP.nan) (prices.getD (i - 1) FP.nan)

/-- `delta.where(delta > 0, 0)` at position `i`. -/
def gainAt (prices : List FP) (i : ℕ) : FP :=
  if FP.lt (FP.num 0) (diffAt prices i) then diffAt prices i else FP.num 0

/-- `(-delta.where(delta < 0, 0))` at position `i`. -/
def lossAt (prices : List FP) (i : ℕ) : FP :=
  FP.neg (if FP.lt (diffAt prices i) (FP.num 0) then diffAt prices i else FP.num 0)

/-- `series.rolling(window=period).mean()` at position `i`: NaN until the
window is filled, then the mean of the trailing `period` entries (NaN
entries propagate, matching the `min_periods` rule). -/
def rollingMean (f : ℕ → FP) (period : ℕ) (i : ℕ) : FP :=
  if i + 1 < period then FP.nan
  else
    FP.div (((List.range period).map fun k => f (i + 1 - period + k)).foldl
      FP.add (FP.num 0)) (FP.num period)

/-- `calculate_rsi` at one position:
`rs = gain / loss; rsi = 100 - 100 / (1 + rs)` with 14-period rolling
means. -/
def rsiAt (prices : List FP) (i : ℕ) : FP :=
  let g := rollingMean (gainAt prices) 14 i
  let l := rollingMean (lossAt prices) 14 i
  FP.sub (FP.num 100) (FP.div (FP.num 100) (FP.add (FP.num 1) (FP.div g l)))

/-- `calculate_rsi`: the RSI series over the whole price list. -/
def calculateRsi (prices : List FP) : List FP :=
  (List.range prices.length).map (rsiAt prices)

/-- The rational value of the gain series `delta.where(delta > 0, 0)` at
position `j` of a numeric price list (the characterisation the RSI lemmas
prove `gainAt` satisfies; position `0`, whose delta is NaN, gives `0`
because a NaN comparison is false). -/
def gainVal (qs : List ℚ) (j : ℕ) : ℚ :=
  if qs.getD (j - 1) 0 < qs.getD j 0 then qs.getD j 0 - qs.getD (j - 1) 0 else 0

/-- The rational value of the loss series `(-delta.where(delta < 0, 0))`
at position `j` of a numeric price list. -/
def lossVal (qs : List ℚ) (j : ℕ) : ℚ :=
  if qs.getD j 0 < qs.getD (j - 1) 0 then qs.getD (j - 1) 0 - qs.getD j 0 else 0

end Rsi

/-! ## Merge: `NASDAQ/merge.py` -/

namespace Merge

/-- One row of `SECstocks.csv` after the nullable-integer coercion of the
`SIC` column (`astype('Int64')`, missing stays missing). -/
structure StockRow where
  symbol : String
  securityName : String
  sic : Option ℤ
  cik : Option ℤ
deriving DecidableEq

/-- One row of the office reference table `SIC.csv`. -/
structure OfficeRow where
  sic : Option ℤ
  office : String
deriving DecidableEq

/-- One output row; the field order is the reordered column order. -/
structure MergedRow where
  symbol : String
  securityName : String
  sic : Option ℤ
  office : Option String
  cik : Option ℤ
deriving DecidableEq

/-- The output column order applied at the end of `merge_data`. -/
def columnOrder : List String :=
  ["NASDAQ Symbol", "Security Name", "SIC", "Office", "CIK"]

/-- `sec_stocks.merge(sic_mapping, on='SIC', how='left')` followed by the
column reorder: every left row yields one output row per matching
reference row (pandas matches missing keys to missing keys), and a single
row with no office when no reference row matches; left order is
preserved. -/
def mergeData (stocks : List StockRow) (mapping : List OfficeRow) :
    List MergedRow :=
  stocks.flatMap fun t =>
    match mapping.filter (fun m => decide (m.sic = t.sic)) with
    | [] => [⟨t.symbol, t.securityName, t.sic, none, t.cik⟩]
    | ms => ms.map fun m => ⟨t.symbol, t.securityName, t.sic, some m.office, t.cik⟩

/-- The output row the amended claim C8 describes for one ticker row: the
ticker's own fields, with the office of the unique matching reference row
when one exists.  Stated from the claim's words, for comparison with
`mergeData`. -/
def mergedRowSpec (mapping : List OfficeRow) (t : StockRow) : MergedRow :=
  match mapping.find? (fun m => decide (m.sic = t.sic)) with
  | some m => ⟨t.symbol, t.securityName, t.sic, some m.office, t.cik⟩
  | none => ⟨t.symbol, t.securityName, t.sic, none, t.cik⟩

end Merge

/-! ## NasdaqModule: module-level control flow of `HistoricalStockData/nasdaq.py`

The call `print_summary(stock_success, stock_end - OFFSET, etf_success,
etf_end - OFFSET)` on line 193 is written at column 0 — at module scope,
outside `main` — while `stock_success`, `stock_end`, `etf_success` and
`etf_end` are local variables of `main`.  The statement therefore executes
when the module is loaded, before the `if __name__ == "__main__": main()`
guard, and name resolution against the module scope fails on its first
argument. -/

namespace NasdaqModule

/-- The names bound at module scope of `nasdaq.py` when line 193 executes:
the four imports, the configuration constants, and the five function
definitions (including `main`, defined on line 158). -/
def moduleBindings : List String :=
  ["pd", "np", "yf", "os", "OFFSET", "LIMIT", "TIMEFRAMES", "ASSET_TYPES",
   "get_nasdaq_symbols", "create_directories", "update_rolling_windows",
   "process_symbol", "print_summary", "main"]

/-- The names the dedented line-193 call evaluates, in CPython order:
the callee, then the argument expressions left to right. -/
def summaryCallNames : List String :=
  ["print_summary", "stock_success", "stock_end", "OFFSET", "etf_success", "etf_end"]

/-- Module-level execution of line 193: the first evaluated name that is
not bound at module scope raises `NameError`; the run never reaches
`main()`. -/
def moduleLevelSummaryCall : Except String Unit :=
  match summaryCallNames.find? (fun n => !(moduleBindings.contains n)) with
  | some n => .error ("NameError: name " ++ n ++ " is not defined")
  | none => .ok ()

end NasdaqModule

/-! ## Theorems -/

namespace Downloader

variable {β : Type}

theorem reverse_tailN (l : List β) (n : ℕ) :
    (tailN l n).reverse = l.reverse.take n := by
  rcases le_total n l.length with h | h
  · unfold tailN
    rw [List.reverse_drop]
    congr 1
    omega
  · unfold tailN
    rw [Nat.sub_eq_zero_of_le h, List.drop_zero,
      List.take_of_length_le (by simpa using h)]

theorem tailN_append_left (xs ys : List β) (n : ℕ) :
    tailN (tailN xs n ++ ys) n = tailN (xs ++ ys) n := by
  apply List.reverse_injective
  rw [reverse_tailN, reverse_tailN, List.reverse_append, List.reverse_append,
    List.take_append_eq_append_take, List.take_append_eq_append_take,
    reverse_tailN, List.take_take]
  congr 2
  omega

theorem tailN_length (l : List β) (n : ℕ) (h : n ≤ l.length) :
    (tailN l n).length = n := by
  unfold tailN
  rw [List.length_drop]
  omega

theorem tailN_suffix (l : List β) (n : ℕ) : tailN l n <:+ l :=
  List.drop_suffix _ _

theorem take_append_tailN (l : List β) (n : ℕ) :
    l.take (l.length - n) ++ tailN l n = l :=
  List.take_append_drop _ _

theorem nodup_map_tailN {γ : Type} (f : β → γ) (l : List β) (n : ℕ)
    (h : (l.map f).Nodup) : ((tailN l n).map f).Nodup :=
  h.sublist (((tailN_suffix l n).sublist).map f)

theorem le_getLast_of_pairwise_lt {l : List ℤ} {D a : ℤ}
    (hp : l.Pairwise (· < ·)) (hl : l.getLast? = some D) (ha : a ∈ l) : a ≤ D := by
  induction l with
  | nil => cases ha
  | cons x xs ih =>
      rcases List.pairwise_cons.mp hp with ⟨hx, hxs⟩
      cases xs with
      | nil =>
          simp only [List.getLast?_singleton, Option.some.injEq] at hl
          simp only [List.mem_singleton] at ha
          omega
      | cons y ys =>
          rw [List.getLast?_cons_cons] at hl
          rcases List.mem_cons.mp ha with rfl | hmem
          · exact le_of_lt (hx D (List.mem_of_mem_getLast? hl))
          · exact ih hxs hl hmem

end Downloader

open Downloader in
/-- Claim C1 (warm-update overlap exclusion): when the existing all-time
series has strictly increasing dates ending at `D` and the provider
returns more than one row starting at `D`, `process_symbol` drops the
fetched anchor row and appends the rest, so the persisted all-time series
is the original followed by the new rows, contains exactly one row dated
`D`, and has no duplicate date. -/
theorem c1_overlap_exclusion {α : Type} (fs : SymbolFiles α)
    (existing rest : List (ℤ × α)) (D : ℤ) (b : α)
    (hex : fs.alltime = some existing)
    (hchain : (existing.map Prod.fst).Pairwise (· < ·))
    (hlast : (existing.map Prod.fst).getLast? = some D)
    (hne : rest ≠ [])
    (hrchain : (rest.map Prod.fst).Pairwise (· < ·))
    (hgt : ∀ p ∈ rest, D < p.1) :
    (processSymbol ((D, b) :: rest) fs).1 = .addedRows rest.length ∧
    ((processSymbol ((D, b) :: rest) fs).2).alltime = some (existing ++ rest) ∧
    ((existing ++ rest).map Prod.fst).count D = 1 ∧
    ((existing ++ rest).map Prod.fst).Nodup := by
  have hlen : ¬ ((D, b) :: rest).length ≤ 1 := by
    have := List.length_pos.mpr hne
    simp only [List.length_cons]
    omega
  obtain ⟨fsa, w1, w5, w10⟩ := fs
  simp only at hex
  subst hex
  have hproc : processSymbol ((D, b) :: rest)
      ⟨some existing, w1, w5, w10⟩ =
      (.addedRows rest.length,
        updateRollingWindows (existing ++ rest) (some rest)
          ⟨some (existing ++ rest), w1, w5, w10⟩) := by
    simp only [processSymbol]
    rw [if_neg hlen]
    rfl
  have hDmem : D ∈ existing.map Prod.fst := List.mem_of_mem_getLast? hlast
  have hpair : ((existing ++ rest).map Prod.fst).Pairwise (· < ·) := by
    rw [List.map_append, List.pairwise_append]
    refine ⟨hchain, hrchain, ?_⟩
    intro a ha c hc
    rcases List.mem_map.mp hc with ⟨p, hp, rfl⟩
    exact lt_of_le_of_lt (le_getLast_of_pairwise_lt hchain hlast ha) (hgt p hp)
  refine ⟨by rw [hproc], by rw [hproc]; rfl, ?_, hpair.imp ne_of_lt⟩
  rw [List.map_append, List.count_append,
    List.count_eq_one_of_mem (hchain.imp ne_of_lt) hDmem,
    List.count_eq_zero.mpr ?_]
  intro hmem
  rcases List.mem_map.mp hmem with ⟨p, hp, hd⟩
  exact absurd hd.symm (ne_of_gt (hgt p hp)).symm

open Downloader in
/-- Witness for C1 at a concrete input: an existing two-row series ending
at date 5 and a three-row fetch for dates 5, 6, 7. -/
theorem c1_overlap_exclusion_witness :
    ((processSymbol [((5 : ℤ), 20), ((6 : ℤ), 30), ((7 : ℤ), 40)]
        { alltime := some [((1 : ℤ), 10), ((5 : ℤ), 11)], w1yr := none,
          w5yr := none, w10yr := none }).2).alltime =
      some [((1 : ℤ), 10), ((5 : ℤ), 11), ((6 : ℤ), 30), ((7 : ℤ), 40)] ∧
    (([((1 : ℤ), 10), ((5 : ℤ), 11), ((6 : ℤ), 30), ((7 : ℤ), 40)].map
        Prod.fst).count 5 = 1) :=
  have h := c1_overlap_exclusion
    (α := ℕ)
    { alltime := some [((1 : ℤ), 10), ((5 : ℤ), 11)], w1yr := none,
      w5yr := none, w10yr := none }
    [((1 : ℤ), 10), ((5 : ℤ), 11)] [((6 : ℤ), 30), ((7 : ℤ), 40)] 5 20
    rfl (by decide) (by decide) (by decide) (by decide) (by decide)
  ⟨h.2.1, h.2.2.1⟩

open Downloader in
/-- Claim C2 (rolling-window trim correctness): refreshing the windows
from an all-time series of at least 2520 rows makes the 1yr/5yr/10yr files
exactly the most recent 252/1260/2520 rows of the series — each a suffix,
so the original date order is kept, and duplicate-free whenever the series
is — while the alltime file is never touched by the window loop; and the
incremental append-and-trim path agrees: a window holding the most recent
rows of the old series, extended with the newly fetched rows and trimmed,
is exactly the most recent rows of the updated series. -/
theorem c2_rolling_window_trim {α : Type} (fs : SymbolFiles α)
    (dataAll : List (ℤ × α)) (dataNew : Option (List (ℤ × α)))
    (hlen : 2520 ≤ dataAll.length)
    (hnd : (dataAll.map Prod.fst).Nodup) :
    (updateRollingWindows dataAll dataNew fs).alltime = fs.alltime ∧
    (updateRollingWindows dataAll none fs =
      { alltime := fs.alltime, w1yr := some (tailN dataAll 252),
        w5yr := some (tailN dataAll 1260), w10yr := some (tailN dataAll 2520) }) ∧
    ((tailN dataAll 252).length = 252 ∧ (tailN dataAll 1260).length = 1260 ∧
      (tailN dataAll 2520).length = 2520) ∧
    (tailN dataAll 252 <:+ dataAll ∧ tailN dataAll 1260 <:+ dataAll ∧
      tailN dataAll 2520 <:+ dataAll) ∧
    (((tailN dataAll 252).map Prod.fst).Nodup ∧
      ((tailN dataAll 1260).map Prod.fst).Nodup ∧
      ((tailN dataAll 2520).map Prod.fst).Nodup) ∧
    (∀ (oldAll dn : List (ℤ × α)) (n : ℕ), dn ≠ [] →
      updateWindow n (oldAll ++ dn) (some dn) (some (tailN oldAll n)) =
        tailN (oldAll ++ dn) n) := by
  refine ⟨rfl, rfl, ⟨?_, ?_, ?_⟩,
    ⟨tailN_suffix _ _, tailN_suffix _ _, tailN_suffix _ _⟩,
    ⟨nodup_map_tailN _ _ _ hnd, nodup_map_tailN _ _ _ hnd,
      nodup_map_tailN _ _ _ hnd⟩, ?_⟩
  · exact tailN_length _ _ (by omega)
  · exact tailN_length _ _ (by omega)
  · exact tailN_length _ _ (by omega)
  · intro oldAll dn n hdn
    cases dn with
    | nil => exact absurd rfl hdn
    | cons c cs =>
        simp only [updateWindow, List.isEmpty_cons, Bool.false_eq_true, if_false]
        exact tailN_append_left oldAll (c :: cs) n

open Downloader in
/-- Witness for C2 at a concrete input: a synthetic 3000-row daily series
with distinct dates. -/
theorem c2_rolling_window_trim_witness :
    (updateRollingWindows ((List.range 3000).map fun i => (Int.ofNat i, ()))
          (none : Option (List (ℤ × Unit)))
          { alltime := some [], w1yr := none, w5yr := none, w10yr := none }).w1yr =
        some (tailN ((List.range 3000).map fun i => (Int.ofNat i, ())) 252) ∧
    (tailN ((List.range 3000).map fun i => (Int.ofNat i, ())) 2520).length = 2520 := by
  have hlen : 2520 ≤ ((List.range 3000).map fun i => (Int.ofNat i, ())).length := by
    rw [List.length_map, List.length_range]
    norm_num
  have hnd : ((((List.range 3000).map fun i => (Int.ofNat i, ())).map Prod.fst)).Nodup := by
    rw [List.map_map]
    exact List.Nodup.map (fun a b h => by simpa using h) (List.nodup_range 3000)
  have h := c2_rolling_window_trim
    { alltime := some [], w1yr := none, w5yr := none, w10yr := none }
    ((List.range 3000).map fun i => (Int.ofNat i, ())) none hlen hnd
  exact ⟨by rw [h.2.1], h.2.2.1.2.2⟩

open Downloader in
/-- Claim C3 (incremental-update idempotence): with an existing all-time
file and a provider response of at most one row, `process_symbol` reports
no new data, returns success, and leaves every file exactly as it was;
hence a second identical run changes nothing either. -/
theorem c3_no_new_data_idempotent {α : Type} (fs : SymbolFiles α)
    (existing fetched : List (ℤ × α))
    (hex : fs.alltime = some existing)
    (hlen : fetched.length ≤ 1) :
    processSymbol fetched fs = (.noNewData, fs) ∧
    (DlStatus.noNewData).success = true ∧
    processSymbol fetched (processSymbol fetched fs).2 = (.noNewData, fs) := by
  have h1 : processSymbol fetched fs = (.noNewData, fs) := by
    unfold processSymbol
    rw [hex]
    simp [hlen]
  exact ⟨h1, rfl, by rw [h1, h1]⟩

open Downloader in
/-- Witness for C3 at a concrete input: a one-row (anchor only) response
against a two-row existing file. -/
theorem c3_no_new_data_idempotent_witness :
    processSymbol [((5 : ℤ), 99)]
        { alltime := some [((1 : ℤ), 10), ((5 : ℤ), 11)],
          w1yr := some [((5 : ℤ), 11)], w5yr := none, w10yr := none } =
      (.noNewData,
        { alltime := some [((1 : ℤ), 10), ((5 : ℤ), 11)],
          w1yr := some [((5 : ℤ), 11)], w5yr := none, w10yr := none }) :=
  (c3_no_new_data_idempotent (α := ℕ)
    { alltime := some [((1 : ℤ), 10), ((5 : ℤ), 11)],
      w1yr := some [((5 : ℤ), 11)], w5yr := none, w10yr := none }
    [((1 : ℤ), 10), ((5 : ℤ), 11)] [((5 : ℤ), 99)] rfl (by decide)).1

namespace Merge

theorem filter_eq_find_toList (mapping : List OfficeRow) (k : Option ℤ)
    (hnd : (mapping.map OfficeRow.sic).Nodup) :
    mapping.filter (fun m => decide (m.sic = k)) =
      (mapping.find? (fun m => decide (m.sic = k))).toList := by
  induction mapping with
  | nil => rfl
  | cons m ms ih =>
      rw [List.map_cons, List.nodup_cons] at hnd
      by_cases hm : m.sic = k
      · rw [List.filter_cons_of_pos (by simpa using hm),
          List.find?_cons_of_pos _ (by simpa using hm)]
        have hrest : ms.filter (fun x => decide (x.sic = k)) = [] := by
          refine List.filter_eq_nil_iff.mpr fun x hx => ?_
          simp only [decide_eq_true_eq]
          intro hxk
          exact hnd.1 (List.mem_map.mpr ⟨x, hx, by rw [hxk, hm]⟩)
        rw [hrest]
        rfl
      · rw [List.filter_cons_of_neg (by simpa using hm),
          List.find?_cons_of_neg _ (by simpa using hm)]
        exact ih hnd.2

end Merge

open Merge in
/-- Counterexample to claim C8 as stated: a reference table holding two
rows for the same SIC code turns a one-row ticker table into a two-row
merge output, so the merge does not produce exactly one output row per
input ticker row for every reference table. -/
theorem c8_merge_left_join_counterexample :
    (mergeData [⟨"AAA", "Acme Corp", some 100, some 17⟩]
        [⟨some 100, "Office X"⟩, ⟨some 100, "Office Y"⟩]).length = 2 ∧
    ([(⟨"AAA", "Acme Corp", some 100, some 17⟩ : StockRow)]).length = 1 := by
  constructor <;> rfl

open Merge in
/-- Claim C8 as amended (merge left-join completeness): when the reference
table holds at most one row per SIC code, the merge output is exactly one
row per input ticker row in input order — the ticker's own fields with the
Office of the matching reference row, present for precisely the tickers
whose SIC appears in the reference table — and the output columns are
ordered (Symbol, Security Name, SIC, Office, CIK). -/
theorem c8_merge_left_join (stocks : List StockRow) (mapping : List OfficeRow)
    (hnd : (mapping.map OfficeRow.sic).Nodup) :
    mergeData stocks mapping = stocks.map (mergedRowSpec mapping) ∧
    (mergeData stocks mapping).length = stocks.length ∧
    (∀ t : StockRow, (mergedRowSpec mapping t).office.isSome = true ↔
      t.sic ∈ mapping.map OfficeRow.sic) ∧
    (∀ t : StockRow, (mergedRowSpec mapping t).symbol = t.symbol ∧
      (mergedRowSpec mapping t).securityName = t.securityName ∧
      (mergedRowSpec mapping t).sic = t.sic ∧
      (mergedRowSpec mapping t).cik = t.cik) ∧
    columnOrder = ["NASDAQ Symbol", "Security Name", "SIC", "Office", "CIK"] := by
  have hpoint : ∀ t : StockRow,
      (match mapping.filter (fun m => decide (m.sic = t.sic)) with
        | [] => [(⟨t.symbol, t.securityName, t.sic, none, t.cik⟩ : MergedRow)]
        | ms => ms.map fun m => ⟨t.symbol, t.securityName, t.sic, some m.office, t.cik⟩) =
        [mergedRowSpec mapping t] := by
    intro t
    rw [filter_eq_find_toList mapping t.sic hnd]
    unfold mergedRowSpec
    cases mapping.find? (fun m => decide (m.sic = t.sic)) with
    | none => rfl
    | some m => rfl
  have hmap : mergeData stocks mapping = stocks.map (mergedRowSpec mapping) := by
    unfold mergeData
    rw [show (fun t : StockRow =>
        (match mapping.filter (fun m => decide (m.sic = t.sic)) with
          | [] => [(⟨t.symbol, t.securityName, t.sic, none, t.cik⟩ : MergedRow)]
          | ms => ms.map fun m => ⟨t.symbol, t.securityName, t.sic, some m.office, t.cik⟩)) =
        fun t => [mergedRowSpec mapping t] from funext hpoint]
    exact (List.map_eq_flatMap _ _).symm
  refine ⟨hmap, by rw [hmap, List.length_map], fun t => ?_, fun t => ?_, rfl⟩
  · unfold mergedRowSpec
    cases hf : mapping.find? (fun m => decide (m.sic = t.sic)) with
    | none =>
        simp only [Option.isSome_none, Bool.false_eq_true, false_iff]
        intro hmem
        rcases List.mem_map.mp hmem with ⟨m, hm, hk⟩
        exact absurd (by simpa using List.find?_eq_none.mp hf m hm) (by simp [hk])
    | some m =>
        simp only [Option.isSome_some, eq_self_iff_true, true_iff]
        exact List.mem_map.mpr ⟨m, List.mem_of_find?_eq_some hf,
          by simpa using List.find?_some hf⟩
  · unfold mergedRowSpec
    cases mapping.find? (fun m => decide (m.sic = t.sic)) with
    | none => exact ⟨rfl, rfl, rfl, rfl⟩
    | some m => exact ⟨rfl, rfl, rfl, rfl⟩

open Merge in
/-- Witness for the amended C8 at a concrete input: two ticker rows, one
matching the single-row reference table and one not. -/
theorem c8_merge_left_join_witness :
    mergeData [⟨"AAA", "Acme Corp", some 100, some 17⟩,
        ⟨"BBB", "Beta Inc", some 200, some 18⟩]
      [⟨some 100, "Office X"⟩] =
      [⟨"AAA", "Acme Corp", some 100, some "Office X", some 17⟩,
        ⟨"BBB", "Beta Inc", some 200, none, some 18⟩] ∧
    (mergeData [⟨"AAA", "Acme Corp", some 100, some 17⟩,
        ⟨"BBB", "Beta Inc", some 200, some 18⟩]
      [⟨some 100, "Office X"⟩]).length = 2 := by
  have h := c8_merge_left_join
    [⟨"AAA", "Acme Corp", some 100, some 17⟩, ⟨"BBB", "Beta Inc", some 200, some 18⟩]
    [⟨some 100, "Office X"⟩] (by decide)
  exact ⟨by rw [h.1]; rfl, h.2.1⟩

/-- Claim C9: the spec requires the end-of-run summary to print after all
symbol processing completes, but the `print_summary(...)` call on line 193
of `nasdaq.py` is dedented to module scope, references `main`'s local
variables, and therefore raises `NameError` when the module loads — before
`main()` ever runs.  The model of the module-level execution of that line
produces exactly that error. -/
theorem c9_summary_call_name_error :
    NasdaqModule.moduleLevelSummaryCall =
      .error "NameError: name stock_success is not defined" := by
  rfl

namespace MathProc

theorem fsum_replicate_num (n : ℕ) (c a : ℚ) :
    (List.replicate n (FP.num c)).foldl FP.add (FP.num a) = FP.num (a + n * c) := by
  induction n generalizing a with
  | zero => simp
  | succ m ih =>
      rw [List.replicate_succ, List.foldl_cons]
      show (List.replicate m (FP.num c)).foldl FP.add (FP.num (a + c)) = _
      rw [ih (a + c)]
      congr 1
      push_cast
      ring

theorem filter_replicate_num (n : ℕ) (c : ℚ) :
    (List.replicate n (FP.num c)).filter (fun p => !p.isNan) =
      List.replicate n (FP.num c) :=
  List.filter_eq_self.mpr fun x hx => by rw [List.eq_of_mem_replicate hx]; rfl

theorem div_num_pos_den (a : ℚ) (d : ℚ) (hd : d ≠ 0) :
    FP.div (FP.num a) (FP.num d) = FP.num (a / d) := by
  simp only [FP.div]
  rw [if_neg hd]

theorem nanmean_replicate_num (m : ℕ) (c : ℚ) :
    nanmean (List.replicate (m + 1) (FP.num c)) = FP.num c := by
  have hq : ((m + 1 : ℕ) : ℚ) ≠ 0 := by positivity
  simp only [nanmean, fsum, filter_replicate_num, List.length_replicate]
  rw [if_neg (by simp [List.isEmpty_iff]), fsum_replicate_num,
    div_num_pos_den _ _ hq]
  congr 1
  field_simp

theorem nanstd_replicate_num (s : ℚ → ℚ) (hs : s 0 = 0) (m : ℕ) (c : ℚ) :
    nanstd s (List.replicate (m + 1) (FP.num c)) = FP.num 0 := by
  have hq : ((m + 1 : ℕ) : ℚ) ≠ 0 := by positivity
  have hz : FP.mul (FP.sub (FP.num c) (FP.num c)) (FP.sub (FP.num c) (FP.num c)) =
      FP.num 0 := by
    show FP.mul (FP.add (FP.num c) (FP.neg (FP.num c)))
      (FP.add (FP.num c) (FP.neg (FP.num c))) = FP.num 0
    unfold FP.neg FP.add FP.mul
    norm_num
  simp only [nanstd, fsum, filter_replicate_num, nanmean_replicate_num,
    List.map_replicate, hz, fsum_replicate_num, List.length_replicate,
    div_num_pos_den _ _ hq]
  norm_num
  exact hs

end MathProc

open MathProc in
/-- Claim C6 (z-score degenerate case): on a constant close series the
population standard deviation is zero, so `compute_z_score_global` takes
its guarded branch and returns the all-zero column — no division fault and
no non-finite values.  The abstracted `np.sqrt` parameter `s` is only
required to send `0` to `0`, as the real square root does. -/
theorem c6_zscore_degenerate (s : ℚ → ℚ) (hs : s 0 = 0) (c : ℚ) (ps : List FP)
    (hall : ∀ p ∈ ps, p = FP.num c) :
    computeZScoreGlobal s ps = List.replicate ps.length (FP.num 0) := by
  rw [List.eq_replicate_of_mem hall]
  rw [List.length_replicate]
  cases hn : ps.length with
  | zero => rfl
  | succ m =>
      have hlt : FP.lt (FP.num 0) (FP.num 0) = false := by
        unfold FP.lt
        simp
      simp only [computeZScoreGlobal, nanstd_replicate_num s hs m c, hlt,
        Bool.false_eq_true, if_false, List.length_replicate]

open MathProc in
/-- Witness for C6 at a concrete input: a constant three-row close series,
with the identity standing in for `np.sqrt` (it sends `0` to `0`). -/
theorem c6_zscore_degenerate_witness :
    computeZScoreGlobal id (List.replicate 3 (FP.num 2)) =
      List.replicate 3 (FP.num 0) := by
  have h := c6_zscore_degenerate id rfl 2 (List.replicate 3 (FP.num 2))
    (fun p hp => List.eq_of_mem_replicate hp)
  simpa using h

open MathProc in
/-- Claim C5 (feature-engineering skip gate): on a frame that already has
all seven derived columns with each populated (non-missing) in its most
recent row, `process_file` returns the skip status before computing or
writing anything — the skip result carries no output frame, so neither the
Parquet nor the CSV file is rewritten and a re-run leaves the file
untouched. -/
theorem c5_feature_skip (lg s : ℚ → ℚ) (f : Frame)
    (hp : ∀ c ∈ f.requiredCols, ∃ l v, c = some l ∧ l.getLast? = some v ∧
      v.isNan = false)
    (hn : 0 < f.nrows) :
    processFile lg s f = .skip := by
  have h1 : f.requiredPresent = true := by
    unfold Frame.requiredPresent
    rw [List.all_eq_true]
    intro c hc
    obtain ⟨l, v, rfl, _, _⟩ := hp c hc
    rfl
  have h3 : f.requiredCols.all (fun c =>
      match (c.getD []).getLast? with
      | some v => !v.isNan
      | none => false) = true := by
    rw [List.all_eq_true]
    intro c hc
    obtain ⟨l, v, rfl, hl, hv⟩ := hp c hc
    simp only [Option.getD_some]
    rw [hl]
    simp [hv]
  have hlrc : f.lastRowComplete = true := by
    unfold Frame.lastRowComplete
    rw [h1, h3]
    simp [hn]
  unfold processFile
  rw [if_pos hlrc]

open MathProc in
/-- Witness for C5 at a concrete input: a one-row frame whose seven
derived columns are all present and populated. -/
theorem c5_feature_skip_witness :
    processFile id id
      ⟨1, some [FP.num 5], some [FP.num 7], some [FP.num 1], some [FP.num 2],
        some [FP.num 3], some [FP.num 4], some [FP.num 6], some [FP.num 8],
        some [FP.num 9]⟩ = .skip :=
  c5_feature_skip id id _
    (fun c hc => by
      simp only [Frame.requiredCols, List.mem_cons, List.not_mem_nil,
        or_false] at hc
      rcases hc with rfl | rfl | rfl | rfl | rfl | rfl | rfl
      all_goals exact ⟨_, _, rfl, rfl, rfl⟩)
    (by norm_num)

namespace MathProc

theorem fillna0_not_nan (x : FP) : (fillna0 x).isNan = false := by
  unfold fillna0
  cases x <;> simp [FP.isNan]

theorem filter_map_fillna0 (cs : List FP) :
    (cs.map fillna0).filter (fun p => !p.isNan) = cs.map fillna0 :=
  List.filter_eq_self.mpr fun x hx => by
    rcases List.mem_map.mp hx with ⟨y, _, rfl⟩
    simp [fillna0_not_nan]

theorem length_computeReturns (ps : List FP) (h : ps ≠ []) :
    (computeReturns ps).length = ps.length := by
  unfold computeReturns
  rw [if_neg (by simp [List.isEmpty_iff, h])]
  simp

theorem length_computeLogReturns (lg : ℚ → ℚ) (ps : List FP) (h : ps ≠ []) :
    (computeLogReturns lg ps).length = ps.length := by
  unfold computeLogReturns
  rw [if_neg (by simp [List.isEmpty_iff, h])]
  simp

theorem length_computeLogVolume (lg : ℚ → ℚ) (vs : List FP) :
    (computeLogVolume lg vs).length = vs.length := by
  unfold computeLogVolume
  simp

theorem length_computeZScoreGlobal (s : ℚ → ℚ) (ps : List FP) :
    (computeZScoreGlobal s ps).length = ps.length := by
  simp only [computeZScoreGlobal]
  split <;> simp

theorem length_computePricePercentile (ps : List FP) :
    (computePricePercentile ps).length = ps.length := by
  unfold computePricePercentile
  simp

theorem length_computeVolumeIntensity (vs : List FP) :
    (computeVolumeIntensity vs).length = vs.length := by
  simp only [computeVolumeIntensity]
  split <;> simp

theorem length_computeCumulativeReturn (ps : List FP) :
    (computeCumulativeReturn ps).length = ps.length := by
  unfold computeCumulativeReturn
  split <;> simp

theorem colBlock_absent (compute : Unit → List FP) (set : Frame → List FP → Frame)
    (b : Bool) (f₀ : Frame) (hlen : (compute ()).length = f₀.nrows) :
    colBlock true none compute set (.ok (b, f₀)) = .ok (true, set f₀ (compute ())) := by
  unfold colBlock colNeedsUpdate setCol
  simp [hlen]

end MathProc

set_option maxHeartbeats 1600000 in
open MathProc in
/-- Claim C10 (zero-fill coercion semantics): when `process_file` computes
the derived columns of a frame with Close and Volume present and the seven
derived columns absent, every column is computed from the
`to_numeric(...).fillna(0)` arrays, in which each missing value has become
the value `0`; those arrays contain no missing entries, so for a nonempty
Close series the all-missing fallback branch of
`compute_cumulative_return` is never taken (and with an empty Close series
the first block's column assignment already raises `ValueError`, so the
fallback is unreachable from `process_file` altogether); the price
percentile and the file mean count every zero-filled entry as a valid
observation — the percentile denominator is the full series length and the
mean divides the full sum by it. -/
theorem c10_fillna_zero_semantics (lg s : ℚ → ℚ) (f : Frame) (cs vs : List FP)
    (hwf : f.wellFormed = true)
    (hc : f.close = some cs) (hv : f.volume = some vs)
    (hne : cs ≠ [])
    (h1 : f.dailyReturn = none) (h2 : f.logReturn = none)
    (h3 : f.logVolume = none) (h4 : f.zScoreGlobal = none)
    (h5 : f.pricePercentile = none) (h6 : f.volumeIntensity = none)
    (h7 : f.cumulativeReturn = none) :
    processFile lg s f = .success
      { f with
        dailyReturn := some (computeReturns (cs.map fillna0)),
        logReturn := some (computeLogReturns lg (cs.map fillna0)),
        logVolume := some (computeLogVolume lg (vs.map fillna0)),
        zScoreGlobal := some (computeZScoreGlobal s (cs.map fillna0)),
        pricePercentile := some (computePricePercentile (cs.map fillna0)),
        volumeIntensity := some (computeVolumeIntensity (vs.map fillna0)),
        cumulativeReturn := some (computeCumulativeReturn (cs.map fillna0)) } ∧
    ((cs.map fillna0).all fun p => !p.isNan) = true ∧
    fallbackCond (cs.map fillna0) = false ∧
    computePricePercentile (cs.map fillna0) = (cs.map fillna0).map
      (fun p => FP.num (((cs.map fillna0).countP fun q => FP.lt q p : ℕ) /
        ((cs.map fillna0).length : ℚ))) ∧
    nanmean (cs.map fillna0) =
      FP.div (fsum (cs.map fillna0)) (FP.num (cs.map fillna0).length) := by
  have hmapne : cs.map fillna0 ≠ [] := by simp [hne]
  have hcl : cs.length = f.nrows := by
    unfold Frame.wellFormed at hwf
    rw [List.all_eq_true] at hwf
    have h := hwf f.close (by simp)
    rw [hc] at h
    simpa using h
  have hvl : vs.length = f.nrows := by
    unfold Frame.wellFormed at hwf
    rw [List.all_eq_true] at hwf
    have h := hwf f.volume (by simp)
    rw [hv] at h
    simpa using h
  have hlen1 : (computeReturns (cs.map fillna0)).length = f.nrows := by
    rw [length_computeReturns _ hmapne, List.length_map, hcl]
  have hlen2 : (computeLogReturns lg (cs.map fillna0)).length = f.nrows := by
    rw [length_computeLogReturns _ _ hmapne, List.length_map, hcl]
  have hlen3 : (computeLogVolume lg (vs.map fillna0)).length = f.nrows := by
    rw [length_computeLogVolume, List.length_map, hvl]
  have hlen4 : (computeZScoreGlobal s (cs.map fillna0)).length = f.nrows := by
    rw [length_computeZScoreGlobal, List.length_map, hcl]
  have hlen5 : (computePricePercentile (cs.map fillna0)).length = f.nrows := by
    rw [length_computePricePercentile, List.length_map, hcl]
  have hlen6 : (computeVolumeIntensity (vs.map fillna0)).length = f.nrows := by
    rw [length_computeVolumeIntensity, List.length_map, hvl]
  have hlen7 : (computeCumulativeReturn (cs.map fillna0)).length = f.nrows := by
    rw [length_computeCumulativeReturn, List.length_map, hcl]
  have hlrc : f.lastRowComplete = false := by
    unfold Frame.lastRowComplete Frame.requiredPresent Frame.requiredCols
    rw [h1]
    simp
  have hblocks : processFileBlocks lg s f = .ok (true,
      { f with
        dailyReturn := some (computeReturns (cs.map fillna0)),
        logReturn := some (computeLogReturns lg (cs.map fillna0)),
        logVolume := some (computeLogVolume lg (vs.map fillna0)),
        zScoreGlobal := some (computeZScoreGlobal s (cs.map fillna0)),
        pricePercentile := some (computePricePercentile (cs.map fillna0)),
        volumeIntensity := some (computeVolumeIntensity (vs.map fillna0)),
        cumulativeReturn := some (computeCumulativeReturn (cs.map fillna0)) }) := by
    unfold processFileBlocks
    rw [hc, hv, h1, h2, h3, h4, h5, h6, h7]
    simp only [Option.isSome_some, Option.getD_some]
    rw [colBlock_absent _ _ _ _ hlen1, colBlock_absent _ _ _ _ hlen2,
      colBlock_absent _ _ _ _ hlen3, colBlock_absent _ _ _ _ hlen4,
      colBlock_absent _ _ _ _ hlen5, colBlock_absent _ _ _ _ hlen6,
      colBlock_absent _ _ _ _ hlen7]
    rw [← hc, ← hv]
  refine ⟨?_, ?_, ?_, ?_, ?_⟩
  · unfold processFile
    rw [if_neg (by rw [hlrc]; exact Bool.false_ne_true), hblocks]
  · rw [List.all_eq_true]
    intro p hp
    rcases List.mem_map.mp hp with ⟨y, _, rfl⟩
    simp [fillna0_not_nan]
  · unfold fallbackCond
    have hany : (cs.map fillna0).any (fun p => !p.isNan) = true := by
      rw [List.any_eq_true]
      obtain ⟨x, hx⟩ := List.exists_mem_of_ne_nil cs hne
      exact ⟨fillna0 x, List.mem_map_of_mem _ hx, by simp [fillna0_not_nan]⟩
    rw [hany]
    rfl
  · unfold computePricePercentile
    rw [filter_map_fillna0]
    refine List.map_eq_map_iff.mpr fun p hp => ?_
    rcases List.mem_map.mp hp with ⟨y, _, rfl⟩
    rw [if_neg (by simp [fillna0_not_nan])]
  · unfold nanmean
    rw [filter_map_fillna0]
    rw [if_neg (by simp [List.isEmpty_iff, hmapne])]

open MathProc in
/-- Witness for C10 at a concrete input: a three-row frame whose Close and
Volume series each contain one missing value. -/
theorem c10_fillna_zero_semantics_witness :
    processFile id id
        ⟨3, some [FP.num 1, FP.nan, FP.num 3], some [FP.num 5, FP.nan, FP.num 7],
          none, none, none, none, none, none, none⟩ = .success
      { nrows := 3, close := some [FP.num 1, FP.nan, FP.num 3],
        volume := some [FP.num 5, FP.nan, FP.num 7],
        dailyReturn := some (computeReturns
          ([FP.num 1, FP.nan, FP.num 3].map fillna0)),
        logReturn := some (computeLogReturns id
          ([FP.num 1, FP.nan, FP.num 3].map fillna0)),
        logVolume := some (computeLogVolume id
          ([FP.num 5, FP.nan, FP.num 7].map fillna0)),
        zScoreGlobal := some (computeZScoreGlobal id
          ([FP.num 1, FP.nan, FP.num 3].map fillna0)),
        pricePercentile := some (computePricePercentile
          ([FP.num 1, FP.nan, FP.num 3].map fillna0)),
        volumeIntensity := some (computeVolumeIntensity
          ([FP.num 5, FP.nan, FP.num 7].map fillna0)),
        cumulativeReturn := some (computeCumulativeReturn
          ([FP.num 1, FP.nan, FP.num 3].map fillna0)) } ∧
    fallbackCond ([FP.num 1, FP.nan, FP.num 3].map fillna0) = false :=
  have h := c10_fillna_zero_semantics id id
    ⟨3, some [FP.num 1, FP.nan, FP.num 3], some [FP.num 5, FP.nan, FP.num 7],
      none, none, none, none, none, none, none⟩
    [FP.num 1, FP.nan, FP.num 3] [FP.num 5, FP.nan, FP.num 7]
    (by decide) rfl rfl (by decide) rfl rfl rfl rfl rfl rfl rfl
  ⟨h.1, h.2.2.1⟩

namespace Rsi

theorem getD_map_range {γ : Type} (f : ℕ → γ) (n i : ℕ) (h : i < n) (d : γ) :
    ((List.range n).map f).getD i d = f i := by
  rw [List.getD_eq_getElem _ _ (by simpa using h)]
  simp

theorem getD_map_num (qs : List ℚ) (j : ℕ) (h : j < qs.length) :
    (qs.map FP.num).getD j FP.nan = FP.num (qs.getD j 0) := by
  rw [List.getD_eq_getElem _ _ (by simpa using h), List.getD_eq_getElem _ _ h]
  simp

theorem sub_num (a b : ℚ) : FP.sub (FP.num a) (FP.num b) = FP.num (a - b) := by
  simp [FP.sub, FP.neg, FP.add, sub_eq_add_neg]

theorem diffAt_succ (qs : List ℚ) (m : ℕ) (h : m + 1 < qs.length) :
    diffAt (qs.map FP.num) (m + 1) =
      FP.num (qs.getD (m + 1) 0 - qs.getD m 0) := by
  unfold diffAt
  rw [if_neg (Nat.succ_ne_zero m)]
  simp only [Nat.add_sub_cancel]
  rw [getD_map_num _ _ h, getD_map_num qs m (by omega), sub_num]

theorem gainAt_map_num (qs : List ℚ) (j : ℕ) (hj : j < qs.length) :
    gainAt (qs.map FP.num) j = FP.num (gainVal qs j) := by
  cases j with
  | zero =>
      unfold gainAt diffAt gainVal
      simp [FP.lt]
  | succ m =>
      unfold gainAt gainVal
      rw [diffAt_succ qs m hj]
      simp only [Nat.add_sub_cancel]
      rw [show FP.lt (FP.num 0) (FP.num (qs.getD (m + 1) 0 - qs.getD m 0)) =
        decide (0 < qs.getD (m + 1) 0 - qs.getD m 0) from rfl]
      by_cases hd : qs.getD m 0 < qs.getD (m + 1) 0
      · rw [if_pos (by simpa using sub_pos.mpr hd), if_pos hd]
      · rw [if_neg (by simpa [sub_pos] using hd), if_neg hd]

theorem lossAt_map_num (qs : List ℚ) (j : ℕ) (hj : j < qs.length) :
    lossAt (qs.map FP.num) j = FP.num (lossVal qs j) := by
  cases j with
  | zero =>
      unfold lossAt diffAt lossVal
      simp [FP.lt, FP.neg]
  | succ m =>
      unfold lossAt lossVal
      rw [diffAt_succ qs m hj]
      simp only [Nat.add_sub_cancel]
      rw [show FP.lt (FP.num (qs.getD (m + 1) 0 - qs.getD m 0)) (FP.num 0) =
        decide (qs.getD (m + 1) 0 - qs.getD m 0 < 0) from rfl]
      by_cases hd : qs.getD (m + 1) 0 < qs.getD m 0
      · rw [if_pos (by simpa [sub_neg] using hd), if_pos hd]
        show FP.num (-(qs.getD (m + 1) 0 - qs.getD m 0)) =
          FP.num (qs.getD m 0 - qs.getD (m + 1) 0)
        congr 1
        ring
      · rw [if_neg (by simpa [sub_neg] using hd), if_neg hd]
        show FP.num (-0) = FP.num 0
        norm_num

theorem foldl_add_map_num (L : List ℚ) (a : ℚ) :
    (L.map FP.num).foldl FP.add (FP.num a) = FP.num (a + L.sum) := by
  induction L generalizing a with
  | nil => simp
  | cons x xs ih =>
      simp only [List.map_cons, List.foldl_cons, List.sum_cons]
      rw [show FP.add (FP.num a) (FP.num x) = FP.num (a + x) from rfl, ih]
      congr 1
      ring

theorem rollingMean_num (f : ℕ → FP) (g : ℕ → ℚ) (i : ℕ) (hwin : 13 ≤ i)
    (hfg : ∀ k, i - 13 ≤ k → k ≤ i → f k = FP.num (g k)) :
    rollingMean f 14 i =
      FP.num ((((List.range 14).map fun k => g (i + 1 - 14 + k)).sum) / 14) := by
  unfold rollingMean
  rw [if_neg (by omega)]
  have hmap : (List.range 14).map (fun k => f (i + 1 - 14 + k)) =
      ((List.range 14).map fun k => g (i + 1 - 14 + k)).map FP.num := by
    rw [List.map_map]
    refine List.map_eq_map_iff.mpr fun k hk => ?_
    rw [List.mem_range] at hk
    exact hfg _ (by omega) (by omega)
  rw [hmap, foldl_add_map_num, MathProc.div_num_pos_den _ _ (by norm_num)]
  norm_num

theorem sum_pos_of_mem (L : List ℚ) (h0 : ∀ x ∈ L, 0 ≤ x) (x₀ : ℚ)
    (hm : x₀ ∈ L) (hx : 0 < x₀) : 0 < L.sum := by
  induction L with
  | nil => cases hm
  | cons y ys ih =>
      rw [List.sum_cons]
      rcases List.mem_cons.mp hm with rfl | hmem
      · have hys : 0 ≤ ys.sum :=
          List.sum_nonneg fun x hx' => h0 x (List.mem_cons_of_mem _ hx')
        linarith
      · have hy : 0 ≤ y := h0 y (List.mem_cons_self y ys)
        have := ih (fun x hx' => h0 x (List.mem_cons_of_mem _ hx')) hmem
        linarith

theorem chain'_le_getD (qs : List ℚ) (h : List.Chain' (· ≤ ·) qs) (m : ℕ)
    (hj : m + 1 < qs.length) : qs.getD m 0 ≤ qs.getD (m + 1) 0 := by
  rw [List.chain'_iff_get] at h
  have hh := h m (by omega)
  rw [List.getD_eq_getElem qs 0 (show m < qs.length by omega),
    List.getD_eq_getElem qs 0 hj]
  simpa using hh

theorem chain'_ge_getD (qs : List ℚ) (h : List.Chain' (· ≥ ·) qs) (m : ℕ)
    (hj : m + 1 < qs.length) : qs.getD (m + 1) 0 ≤ qs.getD m 0 := by
  rw [List.chain'_iff_get] at h
  have hh := h m (by omega)
  rw [List.getD_eq_getElem qs 0 (show m < qs.length by omega),
    List.getD_eq_getElem qs 0 hj]
  simpa using hh

theorem gainVal_nonneg (qs : List ℚ) (j : ℕ) : 0 ≤ gainVal qs j := by
  unfold gainVal
  split
  · linarith [sub_pos.mpr (by assumption : qs.getD (j - 1) 0 < qs.getD j 0)]
  · exact le_refl 0

theorem lossVal_nonneg (qs : List ℚ) (j : ℕ) : 0 ≤ lossVal qs j := by
  unfold lossVal
  split
  · linarith [sub_pos.mpr (by assumption : qs.getD j 0 < qs.getD (j - 1) 0)]
  · exact le_refl 0

theorem div_num_zero_pos (a : ℚ) (ha : 0 < a) :
    FP.div (FP.num a) (FP.num 0) = FP.inf := by
  show (if (0 : ℚ) = 0 then
      (if a = 0 then FP.nan else if 0 < a then FP.inf else FP.ninf)
    else FP.num (a / 0)) = FP.inf
  rw [if_pos rfl, if_neg (ne_of_gt ha), if_pos ha]

theorem div_num_zero_zero : FP.div (FP.num 0) (FP.num 0) = FP.nan := by
  show (if (0 : ℚ) = 0 then
      (if (0 : ℚ) = 0 then FP.nan else if 0 < (0 : ℚ) then FP.inf else FP.ninf)
    else FP.num (0 / 0)) = FP.nan
  rw [if_pos rfl, if_pos rfl]

theorem chain'_le_replicate (n : ℕ) (c : ℚ) :
    List.Chain' (· ≤ ·) (List.replicate n c) := by
  rw [List.chain'_iff_get]
  intro j hj
  simp

theorem chain'_ge_replicate (n : ℕ) (c : ℚ) :
    List.Chain' (· ≥ ·) (List.replicate n c) := by
  rw [List.chain'_iff_get]
  intro j hj
  simp

theorem gainVal_eq_zero_of_nonincreasing (qs : List ℚ)
    (h : List.Chain' (· ≥ ·) qs) (j : ℕ) (hj : j < qs.length) :
    gainVal qs j = 0 := by
  unfold gainVal
  cases j with
  | zero => simp
  | succ m => rw [if_neg (not_lt.mpr (by simpa using chain'_ge_getD qs h m hj))]

theorem lossVal_eq_zero_of_nondecreasing (qs : List ℚ)
    (h : List.Chain' (· ≤ ·) qs) (j : ℕ) (hj : j < qs.length) :
    lossVal qs j = 0 := by
  unfold lossVal
  cases j with
  | zero => simp
  | succ m => rw [if_neg (not_lt.mpr (by simpa using chain'_le_getD qs h m hj))]

end Rsi

open Rsi in
/-- Counterexample to claim C7 as stated: a constant 14-sample close
series never decreases, yet once the rolling window is filled both the
average gain and the average loss are zero, `rs = 0/0` is NaN, and the
computed RSI is NaN, not 100. -/
theorem c7_rsi_boundary_counterexample :
    List.Chain' (· ≤ ·) (List.replicate 14 (1 : ℚ)) ∧
    (calculateRsi ((List.replicate 14 (1 : ℚ)).map FP.num)).getD 13 FP.nan =
      FP.nan ∧
    FP.nan ≠ FP.num 100 := by
  refine ⟨chain'_le_replicate 14 1, ?_, fun h => FP.noConfusion h⟩
  have hlen : ∀ k : ℕ, k ≤ 13 → k < (List.replicate 14 (1 : ℚ)).length := by
    intro k hk
    rw [List.length_replicate]
    omega
  have hg := rollingMean_num (gainAt ((List.replicate 14 (1 : ℚ)).map FP.num))
    (gainVal (List.replicate 14 1)) 13 (by norm_num)
    (fun k _ hk2 => gainAt_map_num _ k (hlen k hk2))
  have hl := rollingMean_num (lossAt ((List.replicate 14 (1 : ℚ)).map FP.num))
    (lossVal (List.replicate 14 1)) 13 (by norm_num)
    (fun k _ hk2 => lossAt_map_num _ k (hlen k hk2))
  have hgsum : ((List.range 14).map fun k =>
      gainVal (List.replicate 14 (1 : ℚ)) (13 + 1 - 14 + k)).sum = 0 := by
    apply List.sum_eq_zero
    intro x hx
    rcases List.mem_map.mp hx with ⟨k, hk, rfl⟩
    rw [List.mem_range] at hk
    exact gainVal_eq_zero_of_nonincreasing _ (chain'_ge_replicate 14 1) _
      (hlen _ (by omega))
  have hlsum : ((List.range 14).map fun k =>
      lossVal (List.replicate 14 (1 : ℚ)) (13 + 1 - 14 + k)).sum = 0 := by
    apply List.sum_eq_zero
    intro x hx
    rcases List.mem_map.mp hx with ⟨k, hk, rfl⟩
    rw [List.mem_range] at hk
    exact lossVal_eq_zero_of_nondecreasing _ (chain'_le_replicate 14 1) _
      (hlen _ (by omega))
  unfold calculateRsi
  rw [List.length_map, List.length_replicate,
    getD_map_range _ _ _ (by norm_num)]
  simp only [rsiAt]
  rw [hg, hl, hgsum, hlsum]
  have h014 : FP.num ((0 : ℚ) / 14) = FP.num 0 := by norm_num
  rw [h014, div_num_zero_zero]
  rfl

open Rsi in
/-- Claim C7 as amended (RSI boundary values): once the 14-sample rolling
window is filled (index 13 on, counting the NaN-delta position the `where`
turns into a zero gain), a close series that never decreases and rises
strictly at least once within the trailing window has RSI exactly 100
(average loss 0, positive average gain, `rs = +inf`); a series that never
increases and falls strictly at least once within the window has RSI
exactly 0.  The strictness proviso is forced by the counterexample: on a
flat window both averages are 0 and the RSI is NaN. -/
theorem c7_rsi_boundary (qs : List ℚ) (i : ℕ) (hwin : 13 ≤ i)
    (hi : i < qs.length) :
    (List.Chain' (· ≤ ·) qs →
      (∃ k, i - 13 ≤ k ∧ k ≤ i ∧ 1 ≤ k ∧ qs.getD (k - 1) 0 < qs.getD k 0) →
      (calculateRsi (qs.map FP.num)).getD i FP.nan = FP.num 100) ∧
    (List.Chain' (· ≥ ·) qs →
      (∃ k, i - 13 ≤ k ∧ k ≤ i ∧ 1 ≤ k ∧ qs.getD k 0 < qs.getD (k - 1) 0) →
      (calculateRsi (qs.map FP.num)).getD i FP.nan = FP.num 0) := by
  have hg := rollingMean_num (gainAt (qs.map FP.num)) (gainVal qs) i hwin
    (fun k _ hk2 => gainAt_map_num qs k (by omega))
  have hl := rollingMean_num (lossAt (qs.map FP.num)) (lossVal qs) i hwin
    (fun k _ hk2 => lossAt_map_num qs k (by omega))
  constructor
  · intro hmono hstrict
    obtain ⟨k₀, hk01, hk02, _, hk0lt⟩ := hstrict
    have hlsum : ((List.range 14).map fun k => lossVal qs (i + 1 - 14 + k)).sum
        = 0 := by
      apply List.sum_eq_zero
      intro x hx
      rcases List.mem_map.mp hx with ⟨k, hk, rfl⟩
      rw [List.mem_range] at hk
      exact lossVal_eq_zero_of_nondecreasing qs hmono _ (by omega)
    have hgpos : 0 <
        ((List.range 14).map fun k => gainVal qs (i + 1 - 14 + k)).sum := by
      refine sum_pos_of_mem _ ?_ (gainVal qs k₀) ?_ ?_
      · intro x hx
        rcases List.mem_map.mp hx with ⟨k, _, rfl⟩
        exact gainVal_nonneg qs _
      · refine List.mem_map.mpr ⟨k₀ - (i - 13), ?_, ?_⟩
        · rw [List.mem_range]
          omega
        · congr 1
          omega
      · unfold gainVal
        rw [if_pos hk0lt]
        linarith
    unfold calculateRsi
    rw [List.length_map, getD_map_range _ _ _ hi]
    simp only [rsiAt]
    rw [hg, hl, hlsum]
    have h014 : FP.num ((0 : ℚ) / 14) = FP.num 0 := by norm_num
    rw [h014]
    have hS14 : 0 <
        (((List.range 14).map fun k => gainVal qs (i + 1 - 14 + k)).sum) / 14 := by
      positivity
    rw [div_num_zero_pos _ hS14]
    show FP.num (100 + -0) = FP.num 100
    norm_num
  · intro hmono hstrict
    obtain ⟨k₀, hk01, hk02, _, hk0lt⟩ := hstrict
    have hgsum : ((List.range 14).map fun k => gainVal qs (i + 1 - 14 + k)).sum
        = 0 := by
      apply List.sum_eq_zero
      intro x hx
      rcases List.mem_map.mp hx with ⟨k, hk, rfl⟩
      rw [List.mem_range] at hk
      exact gainVal_eq_zero_of_nonincreasing qs hmono _ (by omega)
    have hlpos : 0 <
        ((List.range 14).map fun k => lossVal qs (i + 1 - 14 + k)).sum := by
      refine sum_pos_of_mem _ ?_ (lossVal qs k₀) ?_ ?_
      · intro x hx
        rcases List.mem_map.mp hx with ⟨k, _, rfl⟩
        exact lossVal_nonneg qs _
      · refine List.mem_map.mpr ⟨k₀ - (i - 13), ?_, ?_⟩
        · rw [List.mem_range]
          omega
        · congr 1
          omega
      · unfold lossVal
        rw [if_pos hk0lt]
        linarith
    unfold calculateRsi
    rw [List.length_map, getD_map_range _ _ _ hi]
    simp only [rsiAt]
    rw [hg, hl, hgsum]
    have h014 : FP.num ((0 : ℚ) / 14) = FP.num 0 := by norm_num
    rw [h014]
    have hL14 : 0 <
        (((List.range 14).map fun k => lossVal qs (i + 1 - 14 + k)).sum) / 14 := by
      positivity
    rw [MathProc.div_num_pos_den _ _ (ne_of_gt hL14)]
    have hz : FP.num (0 / ((((List.range 14).map fun k =>
        lossVal qs (i + 1 - 14 + k)).sum) / 14)) = FP.num 0 := by
      norm_num
    rw [hz]
    have ha : FP.add (FP.num 1) (FP.num 0) = FP.num 1 := by
      show FP.num (1 + 0) = FP.num 1
      norm_num
    rw [ha]
    have hb : FP.div (FP.num 100) (FP.num 1) = FP.num 100 := by
      rw [MathProc.div_num_pos_den _ _ one_ne_zero]
      norm_num
    rw [hb]
    show FP.num (100 + -100) = FP.num 0
    norm_num

open Rsi in
/-- Witness for the amended C7 at concrete inputs: a strictly increasing
14-sample series yields RSI 100 at index 13, and a strictly decreasing one
yields RSI 0. -/
theorem c7_rsi_boundary_witness :
    (calculateRsi (([0, 1, 2, 3, 4, 5, 6, 7, 8, 9, 10, 11, 12, 13] :
        List ℚ).map FP.num)).getD 13 FP.nan = FP.num 100 ∧
    (calculateRsi (([13, 12, 11, 10, 9, 8, 7, 6, 5, 4, 3, 2, 1, 0] :
        List ℚ).map FP.num)).getD 13 FP.nan = FP.num 0 :=
  ⟨(c7_rsi_boundary [0, 1, 2, 3, 4, 5, 6, 7, 8, 9, 10, 11, 12, 13] 13
      (by norm_num) (by norm_num)).1 (by norm_num [List.chain'_cons])
      ⟨13, by norm_num, by norm_num, by norm_num, by decide⟩,
    (c7_rsi_boundary [13, 12, 11, 10, 9, 8, 7, 6, 5, 4, 3, 2, 1, 0] 13
      (by norm_num) (by norm_num)).2 (by norm_num [List.chain'_cons])
      ⟨13, by norm_num, by norm_num, by norm_num, by decide⟩⟩

open Scanner in
/-- Claim C4 (volume-anomaly flagging definition): over the loaded
six-month window, a record is reported for a day if and only if its volume
strictly exceeds `mean + 10 × std` of the window's volumes and strictly
exceeds the 100,000-share floor and the day is at most 5 days old; the
loaded window is exactly the rows at most six months (180 days) old; and a
symbol whose most recent close is below $0.25 contributes no records at
all. -/
theorem c4_volume_anomaly :
    (∀ (today : ℤ) (t : String) (d : List (ℤ × ℝ)) (r : AnomalyRec),
      r ∈ findAnomalies today t (some d) ↔
        ∃ x ∈ d, meanVol d + stdVol d * 10 < x.2 ∧ (100000 : ℝ) < x.2 ∧
          today - x.1 ≤ 5 ∧ r = ⟨t, x.1, x.2, today - x.1⟩) ∧
    (∀ (today : ℤ) (rows : List (ℤ × ℝ × ℝ)) (d : List (ℤ × ℝ)),
      loadTickerData today rows = some d →
      d = (rows.filter fun x => decide (today - monthCutoffDays ≤ x.1)).map
        fun x => (x.1, x.2.2)) ∧
    (∀ (today : ℤ) (t : String) (rows : List (ℤ × ℝ × ℝ)) (r : ℤ × ℝ × ℝ),
      rows.getLast? = some r → r.2.1 < 1 / 4 →
      processTicker today t rows = []) := by
  refine ⟨?_, ?_, ?_⟩
  · intro today t d r
    simp only [findAnomalies]
    by_cases hd : d.length = 0
    · rw [if_pos hd]
      rw [List.length_eq_zero] at hd
      subst hd
      simp
    · rw [if_neg hd]
      simp only [List.mem_filterMap, List.mem_filter, decide_eq_true_eq]
      constructor
      · rintro ⟨x, ⟨⟨hxd, hup⟩, hmin⟩, hxeq⟩
        refine ⟨x, hxd, hup, hmin, ?_, ?_⟩ <;> split at hxeq
        · assumption
        · exact absurd hxeq (by simp)
        · exact (Option.some_injective _ hxeq).symm
        · exact absurd hxeq (by simp)
      · rintro ⟨x, hxd, hup, hmin, hcond, rfl⟩
        exact ⟨x, ⟨⟨hxd, hup⟩, hmin⟩, by rw [if_pos hcond]⟩
  · intro today rows d h
    unfold loadTickerData at h
    cases hg : rows.getLast? with
    | none =>
        rw [hg] at h
        exact absurd h (by simp)
    | some r =>
        simp only [hg] at h
        by_cases hp : r.2.1 < 1 / 4
        · rw [if_pos hp] at h
          exact absurd h (by simp)
        · rw [if_neg hp] at h
          by_cases he : (rows.filter fun x =>
              decide (today - monthCutoffDays ≤ x.1)).isEmpty
          · rw [if_pos he] at h
            exact absurd h (by simp)
          · rw [if_neg he] at h
            exact (Option.some_injective _ h).symm
  · intro today t rows r hlast hp
    unfold processTicker
    have hload : loadTickerData today rows = none := by
      unfold loadTickerData
      simp only [hlast]
      rw [if_pos hp]
    rw [hload]
    rfl

open Scanner in
/-- Witness for C4 at concrete inputs: a symbol whose last close is $0.10
yields no records, and a 100-day-old window row of volume 50 (below the
floor) is not reported. -/
theorem c4_volume_anomaly_witness :
    processTicker 100 "TST" [((98 : ℤ), ((1 : ℝ) / 10, 500000))] = [] ∧
    (⟨"TST", 100, 50, 0⟩ : AnomalyRec) ∉
      findAnomalies 100 "TST" (some [((100 : ℤ), (50 : ℝ))]) := by
  constructor
  · exact c4_volume_anomaly.2.2 100 "TST" [((98 : ℤ), ((1 : ℝ) / 10, 500000))]
      ((98 : ℤ), ((1 : ℝ) / 10, 500000)) rfl (by norm_num)
  · intro hm
    obtain ⟨x, hx, _, hmin, _, _⟩ :=
      (c4_volume_anomaly.1 100 "TST" [((100 : ℤ), (50 : ℝ))] ⟨"TST", 100, 50, 0⟩).mp hm
    rcases List.mem_singleton.mp hx with rfl
    norm_num at hmin

end StockData
